import Mathlib

/-!
Verification of the handy_CXX_remake reactor library against its design
specification.  Each C++ routine relevant to the checked claims is embedded
as an executable Lean function; machine integers are modelled as `Int`/`Nat`
with explicit wrapping where the source performs a narrowing cast.
-/

namespace Handy

/-! ### Bytes

Byte strings are lists of byte values (`0 ≤ b < 256` is not needed for any of
the claims, so bytes are plain naturals). -/

abbrev Byte := Nat

/-- The byte value of the linefeed character, written `'\n'` in the source. -/
def nlB : Byte := 10

/-- The byte value of the carriage return character, `'\r'` in the source. -/
def crB : Byte := 13

/-- The end-of-transmission byte `0x04` recognised by `LineCodec`. -/
def eotB : Byte := 4

/-! ### LineCodec (src/unnamed/part_006, declaration in conn.h)

`LineCodec::tryDecode(Slice data, Slice &msg)` and `LineCodec::encode` are
pure over the bytes of their input; the mutex they take guards no state that
matters to the result.  `tryDecode` is modelled as returning the `int` result
together with the decoded frame (`some` exactly when the return is positive,
the only case in which the C++ out-parameter is written). -/

/-- `LineCodec::isLegalEot`: the data is exactly one byte and it is `0x04`. -/
def isLegalEot (data : List Byte) : Bool :=
  data.length == 1 && data.headD 0 == eotB

/-- The scan loop of `LineCodec::tryDecode`: index of the first `'\n'` in the
data, if any (`for(size_t i = 0; i < data.size(); ++i) if(data[i] == '\n')`). -/
def findNl : List Byte → Option Nat
  | [] => none
  | b :: rest => if b = nlB then some 0 else (findNl rest).map (· + 1)

/-- Two's-complement wrap of an integer into the `int32_t` range, used where
the source performs `static_cast<int>` of a wider value. -/
def toInt32 (v : Int) : Int :=
  (v + 2 ^ 31) % 2 ^ 32 - 2 ^ 31

/-- `LineCodec::tryDecode`.  Returns the `int` result and the frame:
EOT alone decodes to itself with length 1; otherwise the first `'\n'` at
index `i` ends the frame (at `i-1` when preceded by `'\r'`, else at `i`) and
`static_cast<int>(i + 1)` bytes are consumed (a narrowing cast of the
`size_t` index, modelled by `toInt32`); with no `'\n'` the result is
`(0, none)`. -/
def lineTryDecode (data : List Byte) : Int × Option (List Byte) :=
  if data ≠ [] ∧ isLegalEot data then
    (1, some data)
  else
    match findNl data with
    | some i =>
      if 0 < i ∧ data.getD (i - 1) 0 = crB then
        (toInt32 ((i : Int) + 1), some (data.take (i - 1)))
      else
        (toInt32 ((i : Int) + 1), some (data.take i))
    | none => (0, none)

/-- `LineCodec::encode`: throws `std::invalid_argument` when the message
contains `'\n'` (`msg.find('\n') != Slice::npos`, the same scan loop as
`findNl`), otherwise appends `msg + "\r\n"` to the buffer.  The returned
value is the appended byte string, `none` modelling the throw. -/
def lineEncode (msg : List Byte) : Option (List Byte) :=
  match findNl msg with
  | some _ => none
  | none => some (msg ++ [crB, nlB])

/-! ### LengthCodec (src/unnamed/part_006, declaration in conn.h) -/

/-- The four magic bytes `"mBdT"`. -/
def kMagic : List Byte := [109, 66, 100, 84]

/-- `LengthCodec::kHeaderLen`: 4 magic bytes plus a 4-byte length. -/
def kHeaderLen : Nat := 8

/-- `LengthCodec::kDefaultMaxMsgLen` (1 MiB). -/
def kDefaultMaxMsgLen : Nat := 1024 * 1024

/-- `LengthCodec::DecodeErr::kInvalidMagic = -1`. -/
def kInvalidMagic : Int := -1

/-- `LengthCodec::DecodeErr::kInvalidLength`.  The C++ enumeration is
`enum class DecodeErr { kInvalidMagic = -1, kInvalidLength }`, so the second
enumerator receives the value `-1 + 1 = 0`: the invalid-length return
coincides with the incomplete-data return value. -/
def kInvalidLength : Int := 0

/-- The big-endian signed 32-bit integer formed by four bytes: the source
`memcpy`s bytes 4..8 and converts with `Net::ntoh` into an `int32_t`. -/
def beInt32 (b0 b1 b2 b3 : Byte) : Int :=
  let u : Nat := ((b0 * 256 + b1) * 256 + b2) * 256 + b3
  if u < 2 ^ 31 then (u : Int) else (u : Int) - 2 ^ 32

/-- The header length field of a view: the big-endian `int32_t` at bytes
4..8 (`hostLen` in `LengthCodec::tryDecode`). -/
def beData (data : List Byte) : Int :=
  beInt32 (data.getD 4 0) (data.getD 5 0) (data.getD 6 0) (data.getD 7 0)

/-- `LengthCodec::tryDecode` with the codec's `m_maxMsgLen` passed
explicitly.  Mirrors the source checks in order: short header, magic
mismatch, `hostLen <= 0 || (size_t)hostLen > maxLen`, incomplete payload,
then the frame `Slice(data.data() + kHeaderLen, hostLen)` with result
`static_cast<int>(kHeaderLen + hostLen)`. -/
def lengthTryDecode (maxLen : Nat) (data : List Byte) : Int × Option (List Byte) :=
  if data.length < kHeaderLen then (0, none)
  else if data.take 4 ≠ kMagic then (kInvalidMagic, none)
  else if beData data ≤ 0 ∨ (maxLen : Int) < beData data then (kInvalidLength, none)
  else if data.length < kHeaderLen + (beData data).toNat then (0, none)
  else (toInt32 ((kHeaderLen : Int) + beData data),
        some ((data.drop kHeaderLen).take (beData data).toNat))

/-- The first feed of scenario E2: `"mBdT" + BE32(5) + "he"`. -/
def e2feed1 : List Byte := kMagic ++ [0, 0, 0, 5] ++ [104, 101]

/-- The second feed of scenario E2: `"llo"`. -/
def e2feed2 : List Byte := [108, 108, 111]

/-- The expected frame of scenario E2: `"hello"`. -/
def e2hello : List Byte := [104, 101, 108, 108, 111]

/-! ### Timer store of the event loop (src/handy/event_base.cpp)

`EventsImp` keeps one-shot timers in `std::map<TimerId, Task> m_timers` and
repeating-timer descriptors in `std::map<TimerId, TimerRepeatable>
m_timerReps`, with `TimerId = std::pair<int64_t, int64_t>` ordered
lexicographically.  The maps are embedded as association lists kept sorted
by key; `m_timerSeq` is the sequence counter.  User tasks are opaque
closures identified by a tag; the only task the loop itself creates is the
wrapper lambda `[this, tr]() { repeatableTimeout(tr); }`, represented by the
key under which the repeating descriptor was registered (the captured
pointer stays valid exactly while that map entry exists). -/

/-- `TimerId = std::pair<int64_t, int64_t>`. -/
abbrev TimerId := Int × Int

/-- `std::pair`'s `operator<`: lexicographic comparison. -/
def timerIdLt (a b : TimerId) : Bool :=
  a.1 < b.1 || (a.1 == b.1 && a.2 < b.2)

/-- A value stored in `m_timers`: either an opaque user task or the
repeating-timer wrapper capturing the descriptor registered under
`repKey`. -/
inductive TimerTask where
  | user (f : Nat)
  | rep (repKey : TimerId)
deriving DecidableEq, Repr

/-- The `TimerRepeatable` descriptor: current deadline `at`, interval, the
key of the one-shot entry representing the current firing, and the task. -/
structure TimerRepeatable where
  at_ : Int
  interval_ms : Int
  timerIdPair : TimerId
  task : Nat
deriving DecidableEq, Repr

/-- The timer-related state of `EventsImp` (`m_nextTimeout_ms`, refreshed by
`refreshNearestTimer`, only shortens poll waits and is omitted). -/
structure TimerState where
  timers : List (TimerId × TimerTask)
  timerReps : List (TimerId × TimerRepeatable)
  timerSeq : Int
  exited : Bool
deriving DecidableEq, Repr

/-- `std::map::find` on the association list. -/
def lookupT {α : Type} : List (TimerId × α) → TimerId → Option α
  | [], _ => none
  | (k, v) :: t, key => if k = key then some v else lookupT t key

/-- `std::map::erase(key)`: removes the (unique) entry with that key. -/
def eraseT {α : Type} : List (TimerId × α) → TimerId → List (TimerId × α)
  | [], _ => []
  | (k, v) :: t, key => if k = key then t else (k, v) :: eraseT t key

/-- Ordered insertion, keeping the list sorted by `timerIdLt` as the
`std::map` is. -/
def insertSortedT {α : Type} : List (TimerId × α) → TimerId → α → List (TimerId × α)
  | [], key, v => [(key, v)]
  | (k, w) :: t, key, v =>
    if timerIdLt key k then (key, v) :: (k, w) :: t
    else (k, w) :: insertSortedT t key v

/-- `std::map::emplace`: inserts only when the key is absent; the second
component reports whether insertion happened. -/
def emplaceT {α : Type} (l : List (TimerId × α)) (key : TimerId) (v : α) :
    List (TimerId × α) × Bool :=
  match lookupT l key with
  | some _ => (l, false)
  | none => (insertSortedT l key v, true)

/-- `std::map::operator[] = v`: overwrites the entry if present, inserts
otherwise. -/
def assignT {α : Type} (l : List (TimerId × α)) (key : TimerId) (v : α) :
    List (TimerId × α) :=
  insertSortedT (eraseT l key) key v

/-- `EventsImp::runAt(timestamp_ms, task, interval_ms)`.  Returns the new
state and the public `TimerId` (`TimerId()` is `(0, 0)`).  With
`interval_ms > 0` the repeating descriptor is registered under
`{-timestamp_ms, ++m_timerSeq}` and the one-shot wrapper under
`{timestamp_ms, ++m_timerSeq}` (both increments happen even when the
`emplace` finds the key already present, since the key and value are built
before the call). -/
def runAt (s : TimerState) (timestamp_ms : Int) (f : Nat) (interval_ms : Int) :
    TimerState × TimerId :=
  if s.exited then (s, (0, 0))
  else if 0 < interval_ms then
    let s1 := s.timerSeq + 1
    let rep : TimerId := (-timestamp_ms, s1)
    let s2 := s1 + 1
    let tr : TimerRepeatable := ⟨timestamp_ms, interval_ms, (timestamp_ms, s2), f⟩
    let inserted := emplaceT s.timerReps rep tr
    if inserted.2 then
      ({ s with timerReps := inserted.1,
                timers := assignT s.timers tr.timerIdPair (.rep rep),
                timerSeq := s2 }, rep)
    else
      ({ s with timerSeq := s2 }, (0, 0))
  else
    let s1 := s.timerSeq + 1
    let tid : TimerId := (timestamp_ms, s1)
    ({ s with timers := (emplaceT s.timers tid (.user f)).1, timerSeq := s1 }, tid)

/-- `EventsImp::cancel(timerIdPair)`: a negative first field selects the
repeating branch, which erases the descriptor's current one-shot and then
the descriptor; otherwise the one-shot with that exact key is erased. -/
def cancel (s : TimerState) (tid : TimerId) : TimerState × Bool :=
  if tid.1 < 0 then
    match lookupT s.timerReps tid with
    | none => (s, false)
    | some tr =>
      ({ s with timers := eraseT s.timers tr.timerIdPair,
                timerReps := eraseT s.timerReps tid }, true)
  else
    match lookupT s.timers tid with
    | none => (s, false)
    | some _ => ({ s with timers := eraseT s.timers tid }, true)

/-- `EventsImp::repeatableTimeout(tr)`.  The guard looks up
`{-tr->at, tr->timerIdPair.second}` in `m_timerReps` and returns when the
key is absent (the comment reads "check through the custom id whether the
timer was cancelled"); only if it is found does the code advance
`tr->at += interval`, re-key `tr->timerIdPair` with a fresh sequence number,
register a new one-shot wrapper, and run the task (exceptions logged and
swallowed).  The returned list holds the task tags executed. -/
def repeatableTimeout (s : TimerState) (repKey : TimerId) : TimerState × List Nat :=
  match lookupT s.timerReps repKey with
  | none => (s, [])
  | some tr =>
    match lookupT s.timerReps (-tr.at_, tr.timerIdPair.2) with
    | none => (s, [])
    | some _ =>
      let at' := tr.at_ + tr.interval_ms
      let seq' := s.timerSeq + 1
      let tr' : TimerRepeatable := { tr with at_ := at', timerIdPair := (at', seq') }
      ({ s with timerReps := assignT s.timerReps repKey tr',
                timers := assignT s.timers (at', seq') (.rep repKey),
                timerSeq := seq' }, [tr.task])

/-- The upper bound of `handleTimeoutTimers`:
`TimerId maxTimerId{now_ms, std::numeric_limits<int64_t>::max()}`. -/
def fireBound (now_ms : Int) : TimerId := (now_ms, 2 ^ 63 - 1)

/-- One iteration of the firing loop: move the task out, erase the entry,
then invoke it — a user task only reports its tag, the repeating wrapper
runs `repeatableTimeout`. -/
def fireOne (s : TimerState) (k : TimerId) : TimerState × List Nat :=
  match lookupT s.timers k with
  | none => (s, [])
  | some task =>
    let s' := { s with timers := eraseT s.timers k }
    match task with
    | .user f => (s', [f])
    | .rep repKey => repeatableTimeout s' repKey

/-- Firing the listed keys in order, accumulating executed task tags. -/
def fireMany (s : TimerState) : List TimerId → TimerState × List Nat
  | [] => (s, [])
  | k :: ks =>
    let r := fireOne s k
    let r' := fireMany r.1 ks
    (r'.1, r.2 ++ r'.2)

/-- `EventsImp::handleTimeoutTimers`: walk `m_timers` in key order and fire
every entry with key below `{now_ms, INT64_MAX}`.  The C++ loop advances a
map iterator while erasing; since the only state-changing task is the
repeating wrapper, whose reschedule branch never fires in reachable states
(its guard lookup misses, see `repeatableTimeout`), processing the
start-of-pass snapshot of due keys is equivalent. -/
def handleTimeoutTimers (s : TimerState) (now_ms : Int) : TimerState × List Nat :=
  fireMany s ((s.timers.filter (fun p => timerIdLt p.1 (fireBound now_ms))).map (·.1))

/-- A sequence of firing passes at the given clock readings. -/
def runPasses (s : TimerState) : List Int → TimerState × List Nat
  | [] => (s, [])
  | now :: rest =>
    let r := handleTimeoutTimers s now
    let r' := runPasses r.1 rest
    (r'.1, r.2 ++ r'.2)

/-- The task tag `f` occurs somewhere in the timer state: as a one-shot
user task or as the task of a repeating descriptor.  A freshly created
closure occurs nowhere. -/
def mentionsF (s : TimerState) (f : Nat) : Prop :=
  (∃ p ∈ s.timers, p.2 = TimerTask.user f) ∨ (∃ p ∈ s.timerReps, p.2.task = f)

instance (s : TimerState) (f : Nat) : Decidable (mentionsF s f) := by
  unfold mentionsF
  infer_instance

/-! ### Idle-connection manager (src/handy/event_base.cpp)

`m_idleConns` maps a timeout in seconds to a `std::list<IdleNode>`;
the claims concern a single bucket list, embedded as a Lean list with the
head of the `std::list` first.  Callbacks only have observable effects
outside the structure, so a node keeps its connection tag and timestamp. -/

/-- An `IdleNode` (the callback is identified with the connection tag). -/
structure IdleNode where
  conn : Nat
  lastUpdatedTimestamp_s : Int
deriving DecidableEq, Repr

/-- `EventsImp::registerIdle`, bucket-level effect:
`connList.push_back({conn, utils::timeMilli() / 1000, cb})`. -/
def registerIdleNode (l : List IdleNode) (conn : Nat) (now_s : Int) : List IdleNode :=
  l ++ [⟨conn, now_s⟩]

/-- `EventsImp::updateIdle` on the node at position `i`: set its
`lastUpdatedTimestamp_s` to the current second and splice it to the list
tail. -/
def updateIdleAt (l : List IdleNode) (i : Nat) (now_s : Int) : List IdleNode :=
  match l[i]? with
  | none => l
  | some node => l.eraseIdx i ++ [⟨node.conn, now_s⟩]

/-- `EventsImp::unregisterIdle` on the node at position `i`: erase it. -/
def unregisterIdleAt (l : List IdleNode) (i : Nat) : List IdleNode :=
  l.eraseIdx i

/-- The per-bucket sweep loop of `EventsImp::callIdles`: while the list is
non-empty and the head is expired (`lastUpdatedTimestamp_s + idle_s ≤
now_s`), reset the head's timestamp to `now_s`, splice it to the tail, and
fire its callback (recorded by its connection tag).  The loop breaks at the
first non-expired head.  Fuel bounds the recursion; `l.length` steps always
suffice because a rotated node carries timestamp `now_s` and buckets have
`idle_s > 0` (enforced by `registerIdle`), so it cannot expire again within
the same sweep. -/
def callIdlesB : Nat → List IdleNode → Int → Int → List IdleNode × List Nat
  | 0, l, _, _ => (l, [])
  | _ + 1, [], _, _ => ([], [])
  | fuel + 1, node :: rest, idle_s, now_s =>
    if now_s < node.lastUpdatedTimestamp_s + idle_s then (node :: rest, [])
    else
      let r := callIdlesB fuel (rest ++ [⟨node.conn, now_s⟩]) idle_s now_s
      (r.1, node.conn :: r.2)

/-- One bucket's share of `EventsImp::callIdles` at clock second `now_s`. -/
def callIdlesBucket (l : List IdleNode) (idle_s now_s : Int) : List IdleNode × List Nat :=
  callIdlesB l.length l idle_s now_s

/-- The bucket ordering invariant: timestamps ascending, oldest at head. -/
def sortedByLast (l : List IdleNode) : Prop :=
  l.Pairwise (fun a b => a.lastUpdatedTimestamp_s ≤ b.lastUpdatedTimestamp_s)

/-- All timestamps in the bucket are at most the current clock second (the
clock `utils::timeMilli() / 1000` is monotone and every stored timestamp was
read from it). -/
def boundedBy (l : List IdleNode) (now_s : Int) : Prop :=
  ∀ x ∈ l, x.lastUpdatedTimestamp_s ≤ now_s

instance (l : List IdleNode) : Decidable (sortedByLast l) := by
  unfold sortedByLast
  infer_instance

instance (l : List IdleNode) (now_s : Int) : Decidable (boundedBy l now_s) := by
  unfold boundedBy
  infer_instance

/-! ### TCP connection read path and cleanup (src/handy/conn.cpp and the
copy in src/unnamed/part_009; the two files are textually identical on the
routines below except that `part_009` spells the reconnect call
`_reconnect()` where `conn.cpp` has the no-op statement `_reconnect;`) -/

/-- `TcpConn::State`. -/
inductive ConnSt where
  | INVALID
  | HAND_SHAKING
  | CONNECTED
  | CLOSED
  | FAILED
deriving DecidableEq, Repr

/-- What one iteration of the `_handleRead` while-loop decides to do
next. -/
inductive ReadAction where
  | continueLoop
  | breakLoop
  | cleanupConn
deriving DecidableEq, Repr

/-- The observable outcome of one iteration of the `_handleRead` loop
body. -/
structure ReadIterResult where
  bufGrow : Nat
  idleUpdated : Bool
  readCBInvoked : Bool
  action : ReadAction
deriving DecidableEq, Repr

/-- One iteration of the `while(getState() == State::CONNECTED)` loop of
`TcpConn::_handleRead`, translated branch for branch.  The body declares
`int rd = 0; int fd = -1;`, loads `fd` from the channel, and then runs the
chain `if(fd >= 0) { rd = _readImp(...); } else if(rd == -1 && errno ==
EINTR) ... else if(rd == -1 && (errno == EAGAIN || EWOULDBLOCK)) ... else
if(fd == -1 || rd == 0 || rd == -1) { cleanup } else { addSize(rd) }`.
Because every later arm is an `else` of the `fd >= 0` test, a successful
read falls through to the next loop iteration without committing, and the
`EAGAIN` arm is reachable only with `fd < 0`, where `rd` still holds its
initialiser `0`. -/
def handleReadIter (fd : Int) (readRet : Int) (eintr eagain : Bool)
    (bufSize : Nat) (hasReadCB : Bool) : ReadIterResult :=
  let rd : Int := if 0 ≤ fd then readRet else 0
  if 0 ≤ fd then
    ⟨0, false, false, .continueLoop⟩
  else if rd = -1 && eintr then
    ⟨0, false, false, .continueLoop⟩
  else if rd = -1 && eagain then
    ⟨0, true, hasReadCB && decide (0 < bufSize), .breakLoop⟩
  else if fd = -1 || rd = 0 || rd = -1 then
    ⟨0, false, false, .cleanupConn⟩
  else
    ⟨rd.toNat, false, false, .continueLoop⟩

/-- The fields of `TcpConn` that `cleanup` reads or writes.  Callback slots
hold `some tag` when a callback is installed. -/
structure TcpConnM where
  state : ConnSt
  readCB : Option Nat
  writeCB : Option Nat
  stateCB : Option Nat
  channel : Option Int
  idleIds : List Nat
  reconnectInterval_ms : Int
  baseExited : Bool
  inputBufSize : Nat
deriving DecidableEq, Repr

/-- The result of `TcpConn::cleanup` (`_cleanUp` in conn.cpp): the mutated
connection and whether the reconnect path was taken. -/
structure CleanupResult where
  conn : TcpConnM
  reconnectScheduled : Bool
deriving DecidableEq, Repr

/-- `TcpConn::cleanup` (src/unnamed/part_009 lines 150-217).  In order: a
final readable callback if installed and the input buffer is non-empty
(effect only), the state transition `HAND_SHAKING → FAILED`, otherwise
`→ CLOSED`, the timeout-timer cancel and state callback (effects only),
then either the reconnect path (which keeps callbacks and idle handles and
releases the channel inside `_reconnect`) or the teardown path.  The
teardown unregisters the idle handles, executes the three statements
`m_readCB == nullptr; m_writeCB == nullptr; m_stateCB == nullptr;` — which
are comparisons, so the callback fields keep their values — and deletes the
channel (closing the fd). -/
def cleanup (c : TcpConnM) : CleanupResult :=
  let st' := if c.state = ConnSt.HAND_SHAKING then ConnSt.FAILED else ConnSt.CLOSED
  let c1 := { c with state := st' }
  if 0 ≤ c1.reconnectInterval_ms ∧ ¬c1.baseExited then
    ⟨{ c1 with channel := none }, true⟩
  else
    ⟨{ c1 with idleIds := [], channel := none }, false⟩

/-! ### SafeQueue and ThreadPool (src/unnamed/part_012, header part_002) -/

/-- `SafeQueue::push`: refused when the queue has exited or a capacity is
set and reached; otherwise the value is appended. -/
def safePush (q : List Nat) (exited : Bool) (capacity : Nat) (v : Nat) :
    List Nat × Bool :=
  if exited then (q, false)
  else if 0 < capacity ∧ capacity ≤ q.length then (q, false)
  else (q ++ [v], true)

/-- `SafeQueue::popWait` once the wait in `waitReady` has returned (with
`m_isExited` set, the predicate `m_isExited || !m_items.empty()` already
holds, so the wait returns at once and the queue is unchanged): if the
queue is empty the result is `false`, otherwise the front element is moved
out. -/
def safePopWait (q : List Nat) : Option Nat × List Nat :=
  match q with
  | [] => (none, [])
  | x :: rest => (some x, rest)

/-- `ThreadPool::workerLoop` of one worker, run for `fuel` loop iterations
after `ThreadPool::exit()` has set `m_isExited` (the flag never reverts).
The loop guard `while(!m_isExited)` is tested before each pop, so with the
flag set the worker returns immediately; the executed task tags and the
remaining queue are reported. -/
def workerLoopSteps : Nat → Bool → List Nat → List Nat × List Nat
  | 0, _, q => ([], q)
  | fuel + 1, exited, q =>
    if exited then ([], q)
    else
      match safePopWait q with
      | (none, q') => workerLoopSteps fuel exited q'
      | (some t, q') =>
        let r := workerLoopSteps fuel exited q'
        (t :: r.1, r.2)

/-! ### Epoll poller (src/handy/poller.cpp) -/

/-- One slot of `m_activeEvs` as the dispatch loop of
`PollerEpoll::loopOnce` sees it: whether `ev.data.ptr` still holds a
channel, and the event bits tested (`kReadEvent | POLLERR`, then
`kWriteEvent`). -/
structure EpollEvent where
  hasChannel : Bool
  readableOrErr : Bool
  writable : Bool
deriving DecidableEq, Repr

/-- A handler invocation recorded by the dispatch loop. -/
inductive Dispatched where
  | read
  | write
deriving DecidableEq, Repr

/-- The dispatch loop of `PollerEpoll::loopOnce` over the iterated slots
(the C++ walks indices `m_lastActive - 1` down to `0`; the list is given in
that traversal order).  A cleared slot is skipped; readable-or-error bits
invoke the read handler; else writable invokes the write handler; any other
combination throws (`FATAL` + `std::runtime_error`). -/
def dispatchEvents : List EpollEvent → Except Unit (List Dispatched)
  | [] => .ok []
  | ev :: rest =>
    if ¬ev.hasChannel then dispatchEvents rest
    else if ev.readableOrErr then
      match dispatchEvents rest with
      | .error e => .error e
      | .ok ds => .ok (.read :: ds)
    else if ev.writable then
      match dispatchEvents rest with
      | .error e => .error e
      | .ok ds => .ok (.write :: ds)
    else .error ()

/-- `PollerEpoll::loopOnce`: `m_lastActive = epoll_wait(...)`; a negative
return with `errno != EINTR` throws; otherwise the dispatch loop runs over
indices `m_lastActive - 1 .. 0` (no iterations when the return is
negative or zero) and the function returns `m_lastActive` itself. -/
def pollerLoopOnce (waitRet : Int) (eintr : Bool) (evs : List EpollEvent) :
    Except Unit (Int × List Dispatched) :=
  if waitRet < 0 ∧ ¬eintr then .error ()
  else
    match dispatchEvents (evs.take waitRet.toNat) with
    | .error e => .error e
    | .ok ds => .ok (waitRet, ds)

/-! ## Supporting lemmas -/

lemma findNl_eq_none (m : List Byte) (h : nlB ∉ m) : findNl m = none := by
  induction m with
  | nil => rfl
  | cons b t ih =>
    have hb : ¬b = nlB := fun e => h (e ▸ List.mem_cons_self b t)
    simp [findNl, hb, ih (fun ht => h (List.mem_cons_of_mem _ ht))]

lemma findNl_ne_none (m : List Byte) (h : nlB ∈ m) : findNl m ≠ none := by
  induction m with
  | nil => cases h
  | cons b t ih =>
    by_cases hb : b = nlB
    · simp [findNl, hb]
    · rcases List.mem_cons.mp h with h1 | h2
      · exact absurd h1.symm hb
      · simp only [findNl, if_neg hb]
        cases hft : findNl t with
        | none => exact absurd hft (ih h2)
        | some i => simp

lemma findNl_append_cr_nl (m : List Byte) (h : nlB ∉ m) :
    findNl (m ++ [crB, nlB]) = some (m.length + 1) := by
  induction m with
  | nil => rfl
  | cons b t ih =>
    have hb : ¬b = nlB := fun e => h (e ▸ List.mem_cons_self b t)
    have ht := ih (fun hm => h (List.mem_cons_of_mem _ hm))
    simp [findNl, hb, ht]

lemma getD_append_pair (l : List Byte) (x y : Byte) :
    (l ++ [x, y]).getD l.length 0 = x := by
  induction l with
  | nil => rfl
  | cons b t ih => simpa using ih

lemma take_len_append {α : Type} (l l' : List α) : (l ++ l').take l.length = l := by
  induction l with
  | nil => rfl
  | cons b t ih => simp [ih]

lemma toInt32_eq (v : Int) (h0 : 0 ≤ v + 2 ^ 31) (h1 : v + 2 ^ 31 < 2 ^ 32) :
    toInt32 v = v := by
  unfold toInt32
  rw [Int.emod_eq_of_lt h0 h1]
  ring

/-! ## Claim theorems -/

/-- C1: for every byte string `m` without `'\n'`, `LineCodec::encode(m)`
appends exactly `m ++ "\r\n"`, and `LineCodec::tryDecode` on that output
returns the frame `m` and consumes `len(m) + 2` bytes; `encode` throws for
any message containing `'\n'`.  The length bound keeps the
`static_cast<int>` of the consumed `size_t` count exact: for longer views
the cast wraps and the return is no longer `len(m) + 2`. -/
theorem lineCodec_roundtrip (m : List Byte) (h : nlB ∉ m)
    (hlen : m.length ≤ 2 ^ 31 - 3) :
    lineEncode m = some (m ++ [crB, nlB]) ∧
    lineTryDecode (m ++ [crB, nlB]) = ((m.length : Int) + 2, some m) ∧
    (∀ m', nlB ∈ m' → lineEncode m' = none) := by
  refine ⟨?_, ?_, ?_⟩
  · unfold lineEncode
    rw [findNl_eq_none m h]
  · have hlenF : ((m ++ [crB, nlB]).length == 1) = false := by
      simp
    have hEotF : isLegalEot (m ++ [crB, nlB]) = false := by
      unfold isLegalEot
      rw [hlenF, Bool.false_and]
    have hEot : ¬(m ++ [crB, nlB] ≠ [] ∧ isLegalEot (m ++ [crB, nlB])) := by
      rintro ⟨-, hleg⟩
      rw [hEotF] at hleg
      cases hleg
    unfold lineTryDecode
    rw [if_neg hEot, findNl_append_cr_nl m h]
    show (if 0 < m.length + 1 ∧ (m ++ [crB, nlB]).getD (m.length + 1 - 1) 0 = crB then
            (toInt32 (((m.length + 1 : Nat) : Int) + 1),
              some ((m ++ [crB, nlB]).take (m.length + 1 - 1)))
          else (toInt32 (((m.length + 1 : Nat) : Int) + 1),
              some ((m ++ [crB, nlB]).take (m.length + 1)))) =
        ((m.length : Int) + 2, some m)
    have hcr : (m ++ [crB, nlB]).getD (m.length + 1 - 1) 0 = crB := by
      simpa using getD_append_pair m crB nlB
    rw [if_pos ⟨Nat.succ_pos _, hcr⟩]
    have htake : (m ++ [crB, nlB]).take (m.length + 1 - 1) = m := by
      simp [take_len_append]
    have hcast : ((m.length + 1 : Nat) : Int) + 1 = (m.length : Int) + 2 := by
      push_cast
      ring
    have hwrap : toInt32 (((m.length + 1 : Nat) : Int) + 1) = (m.length : Int) + 2 := by
      rw [hcast]
      refine toInt32_eq _ (by omega) ?_
      have : (m.length : Int) ≤ 2 ^ 31 - 3 := by
        exact_mod_cast Nat.cast_le.mpr hlen
      omega
    rw [htake, hwrap]
  · intro m' hm
    unfold lineEncode
    cases hf : findNl m' with
    | none => exact absurd hf (findNl_ne_none m' hm)
    | some i => rfl

/-- Witness for C1 at the concrete message `"hi"`. -/
theorem lineCodec_roundtrip_witness :
    nlB ∉ ([104, 105] : List Byte) ∧ ([104, 105] : List Byte).length ≤ 2 ^ 31 - 3 ∧
    (lineEncode [104, 105] = some ([104, 105] ++ [crB, nlB]) ∧
      lineTryDecode ([104, 105] ++ [crB, nlB]) =
        ((([104, 105] : List Byte).length : Int) + 2, some [104, 105]) ∧
      (∀ m', nlB ∈ m' → lineEncode m' = none)) :=
  ⟨by decide, by decide, lineCodec_roundtrip [104, 105] (by decide) (by decide)⟩

/-- C2: `LengthCodec::tryDecode` returns 0 on a view shorter than the
8-byte header; `kInvalidMagic` (-1) when the first four bytes are not
`"mBdT"`; `kInvalidLength` when the big-endian `int32` length `n` is
non-positive or exceeds `max_msg_len`; 0 while fewer than `8 + n` bytes are
buffered; and otherwise `8 + n` together with the frame at bytes
`[8, 8 + n)`.  In particular `"mBdT" + BE32(5) + "he"` decodes to `(0, no
frame)` and, after appending `"llo"`, to `(13, "hello")`.  (The bound on
`max_msg_len` keeps the `static_cast<int>` of the total length exact; it
holds for the default 1 MiB limit and any limit below `INT32_MAX - 8`.) -/
theorem lengthCodec_tryDecode_spec (maxLen : Nat) (data : List Byte)
    (hmax : (maxLen : Int) ≤ 2 ^ 31 - 9) :
    (data.length < 8 → lengthTryDecode maxLen data = (0, none)) ∧
    (8 ≤ data.length → data.take 4 ≠ kMagic →
        lengthTryDecode maxLen data = (kInvalidMagic, none)) ∧
    (8 ≤ data.length → data.take 4 = kMagic →
        (beData data ≤ 0 ∨ (maxLen : Int) < beData data →
            lengthTryDecode maxLen data = (kInvalidLength, none)) ∧
        (0 < beData data → beData data ≤ (maxLen : Int) →
            (data.length < 8 + (beData data).toNat →
                lengthTryDecode maxLen data = (0, none)) ∧
            (8 + (beData data).toNat ≤ data.length →
                lengthTryDecode maxLen data =
                  (8 + beData data, some ((data.drop 8).take (beData data).toNat))))) ∧
    lengthTryDecode kDefaultMaxMsgLen e2feed1 = (0, none) ∧
    lengthTryDecode kDefaultMaxMsgLen (e2feed1 ++ e2feed2) = (13, some e2hello) := by
  refine ⟨?_, ?_, ?_, by decide, by decide⟩
  · intro h1
    unfold lengthTryDecode kHeaderLen
    rw [if_pos h1]
  · intro h8 hm
    unfold lengthTryDecode kHeaderLen
    rw [if_neg (not_lt.mpr h8), if_pos hm]
  · intro h8 hm
    have hmm : ¬data.take 4 ≠ kMagic := by
      simpa using hm
    constructor
    · intro hbad
      unfold lengthTryDecode kHeaderLen
      rw [if_neg (not_lt.mpr h8), if_neg hmm, if_pos hbad]
    · intro hpos hle
      have hgood : ¬(beData data ≤ 0 ∨ (maxLen : Int) < beData data) := by
        push_neg
        exact ⟨hpos, hle⟩
      constructor
      · intro hshort
        unfold lengthTryDecode kHeaderLen
        rw [if_neg (not_lt.mpr h8), if_neg hmm, if_neg hgood, if_pos hshort]
      · intro hdone
        unfold lengthTryDecode kHeaderLen
        rw [if_neg (not_lt.mpr h8), if_neg hmm, if_neg hgood,
          if_neg (not_lt.mpr hdone)]
        have hwrap : toInt32 ((8 : Int) + beData data) = 8 + beData data := by
          refine toInt32_eq _ (by omega) (by omega)
        push_cast
        rw [hwrap]

lemma mem_eraseT {α : Type} {p : TimerId × α} {l : List (TimerId × α)} {key : TimerId}
    (h : p ∈ eraseT l key) : p ∈ l := by
  induction l with
  | nil => simp [eraseT] at h
  | cons q t ih =>
    obtain ⟨k, w⟩ := q
    unfold eraseT at h
    by_cases hk : k = key
    · rw [if_pos hk] at h
      exact List.mem_cons_of_mem _ h
    · rw [if_neg hk] at h
      rcases List.mem_cons.mp h with h1 | h2
      · exact h1 ▸ List.mem_cons_self _ _
      · exact List.mem_cons_of_mem _ (ih h2)

lemma mem_insertSortedT {α : Type} {p : TimerId × α} {l : List (TimerId × α)}
    {key : TimerId} {v : α} (h : p ∈ insertSortedT l key v) : p = (key, v) ∨ p ∈ l := by
  induction l with
  | nil =>
    simp [insertSortedT] at h
    exact Or.inl h
  | cons q t ih =>
    obtain ⟨k, w⟩ := q
    unfold insertSortedT at h
    by_cases hlt : timerIdLt key k
    · rw [if_pos hlt] at h
      exact List.mem_cons.mp h
    · rw [if_neg hlt] at h
      rcases List.mem_cons.mp h with h1 | h2
      · exact Or.inr (h1 ▸ List.mem_cons_self _ _)
      · rcases ih h2 with h3 | h4
        · exact Or.inl h3
        · exact Or.inr (List.mem_cons_of_mem _ h4)

lemma mem_assignT {α : Type} {p : TimerId × α} {l : List (TimerId × α)}
    {key : TimerId} {v : α} (h : p ∈ assignT l key v) : p = (key, v) ∨ p ∈ l := by
  unfold assignT at h
  rcases mem_insertSortedT h with h1 | h2
  · exact Or.inl h1
  · exact Or.inr (mem_eraseT h2)

lemma lookupT_mem {α : Type} {l : List (TimerId × α)} {key : TimerId} {v : α}
    (h : lookupT l key = some v) : (key, v) ∈ l := by
  induction l with
  | nil => cases h
  | cons q t ih =>
    obtain ⟨k, w⟩ := q
    unfold lookupT at h
    by_cases hk : k = key
    · rw [if_pos hk] at h
      injection h with h'
      subst hk
      subst h'
      exact List.mem_cons_self _ _
    · rw [if_neg hk] at h
      exact List.mem_cons_of_mem _ (ih h)

lemma lookupT_insertSortedT_self {α : Type} (l : List (TimerId × α)) (key : TimerId)
    (v : α) (h : lookupT l key = none) :
    lookupT (insertSortedT l key v) key = some v := by
  induction l with
  | nil => simp [insertSortedT, lookupT]
  | cons q t ih =>
    obtain ⟨k, w⟩ := q
    unfold lookupT at h
    by_cases hk : k = key
    · rw [if_pos hk] at h
      cases h
    · rw [if_neg hk] at h
      by_cases hlt : timerIdLt key k
      · simp [insertSortedT, hlt, lookupT]
      · simp [insertSortedT, hlt, lookupT, hk, ih h]

lemma eraseT_insertSortedT_self {α : Type} (l : List (TimerId × α)) (key : TimerId)
    (v : α) (h : lookupT l key = none) :
    eraseT (insertSortedT l key v) key = l := by
  induction l with
  | nil => simp [insertSortedT, eraseT]
  | cons q t ih =>
    obtain ⟨k, w⟩ := q
    unfold lookupT at h
    by_cases hk : k = key
    · rw [if_pos hk] at h
      cases h
    · rw [if_neg hk] at h
      by_cases hlt : timerIdLt key k
      · simp [insertSortedT, hlt, eraseT, hk]
      · simp [insertSortedT, hlt, eraseT, hk, ih h]

lemma not_mentions_iff (s : TimerState) (f : Nat) :
    ¬mentionsF s f ↔
      ((∀ p ∈ s.timers, p.2 ≠ TimerTask.user f) ∧ ∀ p ∈ s.timerReps, p.2.task ≠ f) := by
  constructor
  · intro h
    exact ⟨fun p hp hcon => h (Or.inl ⟨p, hp, hcon⟩),
           fun p hp hcon => h (Or.inr ⟨p, hp, hcon⟩)⟩
  · rintro ⟨ha, hb⟩ (⟨p, hp, hcon⟩ | ⟨p, hp, hcon⟩)
    · exact ha p hp hcon
    · exact hb p hp hcon

lemma repeatableTimeout_spec (s : TimerState) (rk : TimerId) (f : Nat)
    (h : ¬mentionsF s f) :
    f ∉ (repeatableTimeout s rk).2 ∧ ¬mentionsF (repeatableTimeout s rk).1 f := by
  obtain ⟨h1, h2⟩ := (not_mentions_iff s f).mp h
  unfold repeatableTimeout
  split
  · exact ⟨by simp, h⟩
  · next tr hl =>
    split
    · exact ⟨by simp, h⟩
    · next tr2 hl2 =>
      have htask : tr.task ≠ f := h2 (rk, tr) (lookupT_mem hl)
      constructor
      · simp only [List.mem_singleton]
        intro e
        exact htask e.symm
      · rw [not_mentions_iff]
        constructor
        · intro p hp
          rcases mem_assignT hp with h3 | h4
          · rw [h3]
            simp
          · exact h1 p h4
        · intro p hp
          rcases mem_assignT hp with h3 | h4
          · rw [h3]
            exact htask
          · exact h2 p h4

lemma fireOne_spec (s : TimerState) (k : TimerId) (f : Nat) (h : ¬mentionsF s f) :
    f ∉ (fireOne s k).2 ∧ ¬mentionsF (fireOne s k).1 f := by
  obtain ⟨h1, h2⟩ := (not_mentions_iff s f).mp h
  unfold fireOne
  split
  · exact ⟨by simp, h⟩
  · next task hl =>
    have hs' : ¬mentionsF { s with timers := eraseT s.timers k } f := by
      rw [not_mentions_iff]
      exact ⟨fun p hp => h1 p (mem_eraseT hp), h2⟩
    cases task with
    | user g =>
      have hgf : TimerTask.user g ≠ TimerTask.user f := h1 (k, .user g) (lookupT_mem hl)
      constructor
      · simp only [List.mem_singleton]
        intro e
        exact hgf (by rw [e])
      · exact hs'
    | rep rk => exact repeatableTimeout_spec _ rk f hs'

lemma fireMany_spec (ks : List TimerId) (s : TimerState) (f : Nat)
    (h : ¬mentionsF s f) :
    f ∉ (fireMany s ks).2 ∧ ¬mentionsF (fireMany s ks).1 f := by
  induction ks generalizing s with
  | nil => exact ⟨by simp [fireMany], h⟩
  | cons k ks ih =>
    obtain ⟨ha, hb⟩ := fireOne_spec s k f h
    obtain ⟨hc, hd⟩ := ih (fireOne s k).1 hb
    refine ⟨?_, hd⟩
    intro hmem
    rcases List.mem_append.mp hmem with hm | hm
    · exact ha hm
    · exact hc hm

lemma runPasses_spec (nows : List Int) (s : TimerState) (f : Nat)
    (h : ¬mentionsF s f) :
    f ∉ (runPasses s nows).2 ∧ ¬mentionsF (runPasses s nows).1 f := by
  induction nows generalizing s with
  | nil => exact ⟨by simp [runPasses], h⟩
  | cons now rest ih =>
    obtain ⟨ha, hb⟩ := fireMany_spec
      ((s.timers.filter (fun p => timerIdLt p.1 (fireBound now))).map (·.1)) s f h
    obtain ⟨hc, hd⟩ := ih (handleTimeoutTimers s now).1 hb
    refine ⟨?_, hd⟩
    intro hmem
    rcases List.mem_append.mp hmem with hm | hm
    · exact ha hm
    · exact hc hm

lemma cancel_runAt_not_mentions (s0 : TimerState) (f : Nat) (d I : Int)
    (hf : ¬mentionsF s0 f) (hd : 0 < d) :
    ¬mentionsF (cancel (runAt s0 d f I).1 (runAt s0 d f I).2).1 f := by
  obtain ⟨h1, h2⟩ := (not_mentions_iff s0 f).mp hf
  by_cases hex : s0.exited
  · have hr : runAt s0 d f I = (s0, (0, 0)) := by
      unfold runAt
      rw [if_pos hex]
    rw [hr]
    unfold cancel
    rw [if_neg (by decide : ¬(((0 : Int), (0 : Int)) : TimerId).1 < 0)]
    split
    · exact hf
    · next t hl =>
      rw [not_mentions_iff]
      exact ⟨fun p hp => h1 p (mem_eraseT hp), h2⟩
  · by_cases hI : 0 < I
    · cases hemp : lookupT s0.timerReps (-d, s0.timerSeq + 1) with
      | some tr0 =>
        have hr : runAt s0 d f I =
            ({ s0 with timerSeq := s0.timerSeq + 1 + 1 }, (0, 0)) := by
          unfold runAt
          rw [if_neg hex, if_pos hI]
          simp only [emplaceT, hemp]
          simp
        rw [hr]
        unfold cancel
        rw [if_neg (by decide : ¬(((0 : Int), (0 : Int)) : TimerId).1 < 0)]
        split
        · rw [not_mentions_iff]
          exact ⟨h1, h2⟩
        · next t hl =>
          rw [not_mentions_iff]
          exact ⟨fun p hp => h1 p (mem_eraseT hp), h2⟩
      | none =>
        have hr : runAt s0 d f I =
            ({ s0 with
                timerReps := insertSortedT s0.timerReps (-d, s0.timerSeq + 1)
                  ⟨d, I, (d, s0.timerSeq + 1 + 1), f⟩,
                timers := assignT s0.timers (d, s0.timerSeq + 1 + 1)
                  (.rep (-d, s0.timerSeq + 1)),
                timerSeq := s0.timerSeq + 1 + 1 }, (-d, s0.timerSeq + 1)) := by
          unfold runAt
          rw [if_neg hex, if_pos hI]
          simp only [emplaceT, hemp]
          simp
        rw [hr]
        unfold cancel
        rw [if_pos (show ((-d, s0.timerSeq + 1) : TimerId).1 < 0 by
          show -d < 0
          omega)]
        split
        · next hl =>
          rw [lookupT_insertSortedT_self _ _ _ hemp] at hl
          cases hl
        · next tr hl =>
          rw [lookupT_insertSortedT_self _ _ _ hemp] at hl
          injection hl with hl'
          subst hl'
          rw [not_mentions_iff]
          constructor
          · intro p hp
            rcases mem_assignT (mem_eraseT hp) with h3 | h4
            · rw [h3]
              simp
            · exact h1 p h4
          · intro p hp
            rw [eraseT_insertSortedT_self _ _ _ hemp] at hp
            exact h2 p hp
    · cases hemp : lookupT s0.timers (d, s0.timerSeq + 1) with
      | some t0 =>
        have hr : runAt s0 d f I =
            ({ s0 with timers := s0.timers, timerSeq := s0.timerSeq + 1 },
              (d, s0.timerSeq + 1)) := by
          unfold runAt
          rw [if_neg hex, if_neg hI]
          simp only [emplaceT, hemp]
        rw [hr]
        unfold cancel
        rw [if_neg (show ¬((d, s0.timerSeq + 1) : TimerId).1 < 0 by
          show ¬d < 0
          omega)]
        split
        · rw [not_mentions_iff]
          exact ⟨h1, h2⟩
        · next t hl =>
          rw [not_mentions_iff]
          exact ⟨fun p hp => h1 p (mem_eraseT hp), h2⟩
      | none =>
        have hr : runAt s0 d f I =
            ({ s0 with
                timers := insertSortedT s0.timers (d, s0.timerSeq + 1) (.user f),
                timerSeq := s0.timerSeq + 1 }, (d, s0.timerSeq + 1)) := by
          unfold runAt
          rw [if_neg hex, if_neg hI]
          simp only [emplaceT, hemp]
        rw [hr]
        unfold cancel
        rw [if_neg (show ¬((d, s0.timerSeq + 1) : TimerId).1 < 0 by
          show ¬d < 0
          omega)]
        split
        · next hl =>
          rw [lookupT_insertSortedT_self _ _ _ hemp] at hl
          cases hl
        · next t hl =>
          rw [not_mentions_iff]
          constructor
          · intro p hp
            rw [eraseT_insertSortedT_self _ _ _ hemp] at hp
            exact h1 p hp
          · exact h2

/-- Witness for C2 at the default 1 MiB limit and the completed E2 view. -/
theorem lengthCodec_tryDecode_spec_witness :
    ((kDefaultMaxMsgLen : Nat) : Int) ≤ 2 ^ 31 - 9 ∧
    (((e2feed1 ++ e2feed2).length < 8 →
        lengthTryDecode kDefaultMaxMsgLen (e2feed1 ++ e2feed2) = (0, none)) ∧
      (8 ≤ (e2feed1 ++ e2feed2).length → (e2feed1 ++ e2feed2).take 4 ≠ kMagic →
          lengthTryDecode kDefaultMaxMsgLen (e2feed1 ++ e2feed2) = (kInvalidMagic, none)) ∧
      (8 ≤ (e2feed1 ++ e2feed2).length → (e2feed1 ++ e2feed2).take 4 = kMagic →
          (beData (e2feed1 ++ e2feed2) ≤ 0 ∨
              ((kDefaultMaxMsgLen : Nat) : Int) < beData (e2feed1 ++ e2feed2) →
              lengthTryDecode kDefaultMaxMsgLen (e2feed1 ++ e2feed2) = (kInvalidLength, none)) ∧
          (0 < beData (e2feed1 ++ e2feed2) →
              beData (e2feed1 ++ e2feed2) ≤ ((kDefaultMaxMsgLen : Nat) : Int) →
              ((e2feed1 ++ e2feed2).length < 8 + (beData (e2feed1 ++ e2feed2)).toNat →
                  lengthTryDecode kDefaultMaxMsgLen (e2feed1 ++ e2feed2) = (0, none)) ∧
              (8 + (beData (e2feed1 ++ e2feed2)).toNat ≤ (e2feed1 ++ e2feed2).length →
                  lengthTryDecode kDefaultMaxMsgLen (e2feed1 ++ e2feed2) =
                    (8 + beData (e2feed1 ++ e2feed2),
                      some (((e2feed1 ++ e2feed2).drop 8).take
                        (beData (e2feed1 ++ e2feed2)).toNat))))) ∧
      lengthTryDecode kDefaultMaxMsgLen e2feed1 = (0, none) ∧
      lengthTryDecode kDefaultMaxMsgLen (e2feed1 ++ e2feed2) = (13, some e2hello)) :=
  ⟨by decide, lengthCodec_tryDecode_spec kDefaultMaxMsgLen (e2feed1 ++ e2feed2) (by decide)⟩

/-- C3: a task `f` registered with `runAt(d, f)` — one-shot or repeating —
and cancelled with the returned `TimerId` before the firing pass runs is
never invoked by any subsequent `handleTimeoutTimers` pass of the loop.
The hypotheses say that `f` is a fresh closure (it occurs nowhere in the
prior timer state) and that the deadline is positive, as every deadline
produced by `utils::timeMilli()` (milliseconds since the epoch) is. -/
theorem runAt_cancel_never_fires (s0 : TimerState) (f : Nat) (d I : Int)
    (nows : List Int) (hf : ¬mentionsF s0 f) (hd : 0 < d) :
    f ∉ (runPasses (cancel (runAt s0 d f I).1 (runAt s0 d f I).2).1 nows).2 :=
  (runPasses_spec nows _ f (cancel_runAt_not_mentions s0 f d I hf hd)).1

/-- Witness for C3: from the empty loop state, register task 7 at deadline
100 with interval 5, cancel it, and run firing passes at 50, 100 and 200. -/
theorem runAt_cancel_never_fires_witness :
    ¬mentionsF ⟨[], [], 0, false⟩ 7 ∧ (0 : Int) < 100 ∧
    7 ∉ (runPasses
          (cancel (runAt ⟨[], [], 0, false⟩ 100 7 5).1
            (runAt ⟨[], [], 0, false⟩ 100 7 5).2).1 [50, 100, 200]).2 :=
  ⟨by decide, by decide,
    runAt_cancel_never_fires ⟨[], [], 0, false⟩ 7 100 5 [50, 100, 200]
      (by decide) (by decide)⟩

/-- C4: evaluating the code at the failing input.  From the empty loop
state, `runAt(100, task 7, interval 50)` registers the repeating descriptor
under key `(-100, 1)` with current one-shot `(100, 2)`.  When the firing
pass runs at `now = 200`, `repeatableTimeout` looks up `{-tr->at,
tr->timerIdPair.second} = (-100, 2)` in `m_timerReps`, which only holds key
`(-100, 1)`; the lookup misses, so the pass executes no task, inserts no
one-shot at deadline `150 = 100 + 50`, and leaves the descriptor untouched
— against the claim that the task runs and the next firing is scheduled at
`current_deadline + interval`. -/
theorem repeatingTimer_firing_is_noop :
    handleTimeoutTimers (runAt ⟨[], [], 0, false⟩ 100 7 50).1 200 =
      (⟨[], [((-100, 1), ⟨100, 50, (100, 2), 7⟩)], 2, false⟩, []) := by
  decide

lemma sorted_append_node (l : List IdleNode) (x : IdleNode) (hs : sortedByLast l)
    (hx : ∀ y ∈ l, y.lastUpdatedTimestamp_s ≤ x.lastUpdatedTimestamp_s) :
    sortedByLast (l ++ [x]) := by
  unfold sortedByLast at *
  rw [List.pairwise_append]
  refine ⟨hs, List.pairwise_singleton _ _, ?_⟩
  intro a ha b hb
  rw [List.mem_singleton] at hb
  subst hb
  exact hx a ha

lemma callIdlesB_preserves (fuel : Nat) (l : List IdleNode) (idle_s now_s : Int)
    (hs : sortedByLast l) (hb : boundedBy l now_s) :
    sortedByLast (callIdlesB fuel l idle_s now_s).1 ∧
    boundedBy (callIdlesB fuel l idle_s now_s).1 now_s := by
  induction fuel generalizing l with
  | zero => exact ⟨hs, hb⟩
  | succ n ih =>
    cases l with
    | nil => exact ⟨hs, hb⟩
    | cons node rest =>
      unfold callIdlesB
      split
      · exact ⟨hs, hb⟩
      · next hexp =>
        have hs' : sortedByLast rest := (List.pairwise_cons.mp hs).2
        have hb' : boundedBy rest now_s :=
          fun y hy => hb y (List.mem_cons_of_mem _ hy)
        have hsr : sortedByLast (rest ++ [⟨node.conn, now_s⟩]) :=
          sorted_append_node rest _ hs' (fun y hy => hb' y hy)
        have hbr : boundedBy (rest ++ [⟨node.conn, now_s⟩]) now_s := by
          intro y hy
          rcases List.mem_append.mp hy with h1 | h2
          · exact hb' y h1
          · rw [List.mem_singleton] at h2
            subst h2
            exact le_refl now_s
        exact ih _ hsr hbr

/-- C9: each idle-bucket list keeps its entries ordered by
`lastUpdatedTimestamp_s` ascending (oldest at the head) below the current
clock second, and every operation preserves this: `registerIdle` appends a
node stamped with the current second, `updateIdle` restamps a node and
splices it to the tail, `unregisterIdle` erases a node, and the once-a-
second sweep rotates each expired head — restamped to `now` — to the tail
before firing its callback (the final conjunct is the sweep's one-step
behaviour on an expired head). -/
theorem idleBucket_order_invariant (now_s : Int) :
    (∀ l (conn : Nat), sortedByLast l → boundedBy l now_s →
        sortedByLast (registerIdleNode l conn now_s) ∧
        boundedBy (registerIdleNode l conn now_s) now_s) ∧
    (∀ l (i : Nat), sortedByLast l → boundedBy l now_s →
        sortedByLast (updateIdleAt l i now_s) ∧
        boundedBy (updateIdleAt l i now_s) now_s) ∧
    (∀ l (i : Nat), sortedByLast l → boundedBy l now_s →
        sortedByLast (unregisterIdleAt l i) ∧
        boundedBy (unregisterIdleAt l i) now_s) ∧
    (∀ l (idle_s : Int), sortedByLast l → boundedBy l now_s →
        sortedByLast (callIdlesBucket l idle_s now_s).1 ∧
        boundedBy (callIdlesBucket l idle_s now_s).1 now_s) ∧
    (∀ (node : IdleNode) (rest : List IdleNode) (idle_s : Int),
        node.lastUpdatedTimestamp_s + idle_s ≤ now_s →
        callIdlesBucket (node :: rest) idle_s now_s =
          ((callIdlesB rest.length (rest ++ [⟨node.conn, now_s⟩]) idle_s now_s).1,
            node.conn ::
              (callIdlesB rest.length (rest ++ [⟨node.conn, now_s⟩]) idle_s now_s).2)) := by
  refine ⟨?_, ?_, ?_, ?_, ?_⟩
  · intro l conn hs hb
    constructor
    · exact sorted_append_node l _ hs (fun y hy => hb y hy)
    · intro y hy
      rcases List.mem_append.mp hy with h1 | h2
      · exact hb y h1
      · rw [List.mem_singleton] at h2
        subst h2
        exact le_refl now_s
  · intro l i hs hb
    unfold updateIdleAt
    split
    · exact ⟨hs, hb⟩
    · next node hg =>
      have hsub : List.Sublist (l.eraseIdx i) l := List.eraseIdx_sublist l i
      constructor
      · exact sorted_append_node _ _ (hs.sublist hsub)
          (fun y hy => hb y (hsub.subset hy))
      · intro y hy
        rcases List.mem_append.mp hy with h1 | h2
        · exact hb y (hsub.subset h1)
        · rw [List.mem_singleton] at h2
          subst h2
          exact le_refl now_s
  · intro l i hs hb
    have hsub : List.Sublist (l.eraseIdx i) l := List.eraseIdx_sublist l i
    exact ⟨hs.sublist hsub, fun y hy => hb y (hsub.subset hy)⟩
  · intro l idle_s hs hb
    exact callIdlesB_preserves l.length l idle_s now_s hs hb
  · intro node rest idle_s h
    show callIdlesB (rest.length + 1) (node :: rest) idle_s now_s = _
    rw [show callIdlesB (rest.length + 1) (node :: rest) idle_s now_s =
          if now_s < node.lastUpdatedTimestamp_s + idle_s then (node :: rest, [])
          else
            ((callIdlesB rest.length (rest ++ [⟨node.conn, now_s⟩]) idle_s now_s).1,
              node.conn ::
                (callIdlesB rest.length (rest ++ [⟨node.conn, now_s⟩]) idle_s now_s).2)
        from rfl]
    rw [if_neg (not_lt.mpr h)]

/-- Witness for C9 at clock second 10 over the bucket `[⟨1, 3⟩, ⟨2, 5⟩]`
with timeout 4 (so the head node, last active at second 3, is expired). -/
theorem idleBucket_order_invariant_witness :
    (sortedByLast [⟨1, 3⟩, ⟨2, 5⟩] ∧ boundedBy [⟨1, 3⟩, ⟨2, 5⟩] 10) ∧
    (sortedByLast (registerIdleNode [⟨1, 3⟩, ⟨2, 5⟩] 9 10) ∧
      boundedBy (registerIdleNode [⟨1, 3⟩, ⟨2, 5⟩] 9 10) 10) ∧
    (sortedByLast (updateIdleAt [⟨1, 3⟩, ⟨2, 5⟩] 0 10) ∧
      boundedBy (updateIdleAt [⟨1, 3⟩, ⟨2, 5⟩] 0 10) 10) ∧
    (sortedByLast (callIdlesBucket [⟨1, 3⟩, ⟨2, 5⟩] 4 10).1 ∧
      boundedBy (callIdlesBucket [⟨1, 3⟩, ⟨2, 5⟩] 4 10).1 10) ∧
    ((⟨1, 3⟩ : IdleNode).lastUpdatedTimestamp_s + 4 ≤ 10 ∧
      callIdlesBucket [⟨1, 3⟩, ⟨2, 5⟩] 4 10 =
        ((callIdlesB 1 [⟨2, 5⟩, ⟨1, 10⟩] 4 10).1,
          1 :: (callIdlesB 1 [⟨2, 5⟩, ⟨1, 10⟩] 4 10).2)) :=
  ⟨⟨by decide, by decide⟩,
    (idleBucket_order_invariant 10).1 [⟨1, 3⟩, ⟨2, 5⟩] 9 (by decide) (by decide),
    (idleBucket_order_invariant 10).2.1 [⟨1, 3⟩, ⟨2, 5⟩] 0 (by decide) (by decide),
    (idleBucket_order_invariant 10).2.2.2.1 [⟨1, 3⟩, ⟨2, 5⟩] 4 (by decide) (by decide),
    ⟨by decide,
      (idleBucket_order_invariant 10).2.2.2.2 ⟨1, 3⟩ [⟨2, 5⟩] 4 (by decide)⟩⟩

/-- C5: evaluating the read loop at the failing inputs.  With a valid fd
(5) the loop body performs the read and nothing else: a successful read of
3 bytes leaves the input buffer unchanged (the claim requires a commit of 3
bytes), and a read returning -1 with `errno == EAGAIN` neither updates the
idle handles, nor invokes the readable callback, nor breaks — the
`else if` arms that would are dead code behind the `if (fd >= 0)` test. -/
theorem handleRead_commit_and_eagain_dead :
    handleReadIter 5 3 false false 0 true = ⟨0, false, false, .continueLoop⟩ ∧
    handleReadIter 5 (-1) false true 7 true = ⟨0, false, false, .continueLoop⟩ := by
  decide

/-- C6: evaluating `cleanup` on a connected client with all three callbacks
installed, one idle handle, and reconnects disabled (interval -1).  The
channel is destroyed (fd freed) and the idle handle unregistered, but the
statements `m_readCB == nullptr; m_writeCB == nullptr; m_stateCB ==
nullptr;` are comparisons, so all three callbacks remain installed —
against the claim that they are null after cleanup. -/
theorem cleanup_keeps_callbacks :
    cleanup ⟨.CONNECTED, some 1, some 2, some 3, some 5, [4], -1, false, 0⟩ =
      ⟨⟨.CLOSED, some 1, some 2, some 3, none, [], -1, false, 0⟩, false⟩ := by
  decide

/-- C7: evaluating the worker pool at the failing input.  After `exit()`
has set `m_isExited`, `push` of a new task is refused (that half of the
claim holds), but a worker that reaches the `while(!m_isExited)` guard
executes none of the tasks still queued — here `[1, 2]` remain unexecuted
for any number of loop iterations, though the header of `ThreadPool::exit`
promises that already-added tasks keep executing to completion. -/
theorem threadPool_exit_drops_pending :
    safePush [] true 0 9 = ([], false) ∧
    ∀ fuel, workerLoopSteps fuel true [1, 2] = ([], [1, 2]) := by
  refine ⟨by decide, ?_⟩
  intro fuel
  cases fuel with
  | zero => rfl
  | succ n => rfl

/-- C8 counterexample: when `epoll_wait` returns -1 with `errno == EINTR`,
`loopOnce` dispatches no handlers and raises no error, but it returns
`m_lastActive = -1`, not 0 as the claim states. -/
theorem pollerLoopOnce_eintr_counterexample :
    pollerLoopOnce (-1) true [] = .ok (-1, []) ∧ ((-1 : Int) ≠ 0) :=
  ⟨rfl, by decide⟩

/-- C8 amended: when the wait returns a negative value with `errno ==
EINTR`, `loopOnce` dispatches no handlers and surfaces no error, returning
the negative wait value itself (which callers ignore); any other negative
return raises an error. -/
theorem pollerLoopOnce_eintr_spec (waitRet : Int) (evs : List EpollEvent)
    (h : waitRet < 0) :
    pollerLoopOnce waitRet true evs = .ok (waitRet, []) ∧
    pollerLoopOnce waitRet false evs = .error () := by
  constructor
  · unfold pollerLoopOnce
    rw [if_neg (by simp)]
    rw [Int.toNat_of_nonpos h.le]
    rfl
  · unfold pollerLoopOnce
    rw [if_pos ⟨h, by simp⟩]

/-- Witness for C8's amended statement at `waitRet = -1`. -/
theorem pollerLoopOnce_eintr_spec_witness :
    ((-1 : Int) < 0) ∧
    (pollerLoopOnce (-1) true [] = .ok (-1, []) ∧
      pollerLoopOnce (-1) false [] = .error ()) :=
  ⟨by decide, pollerLoopOnce_eintr_spec (-1) [] (by decide)⟩

/-- C10: after `exit()` the wait predicate of `waitReady` holds at once,
and `popWait` still delivers: on a non-empty queue it returns `true` with
the front element removed, and it returns `false` exactly on the empty
queue. -/
theorem popWait_after_exit (q : List Nat) (h : q ≠ []) :
    (∃ x rest, q = x :: rest ∧ safePopWait q = (some x, rest)) ∧
    safePopWait ([] : List Nat) = (none, []) := by
  constructor
  · cases q with
    | nil => exact absurd rfl h
    | cons x rest => exact ⟨x, rest, rfl, rfl⟩
  · rfl

/-- Witness for C10 at the queue `[3, 4]`. -/
theorem popWait_after_exit_witness :
    ([3, 4] : List Nat) ≠ [] ∧
    ((∃ x rest, ([3, 4] : List Nat) = x :: rest ∧
        safePopWait [3, 4] = (some x, rest)) ∧
      safePopWait ([] : List Nat) = (none, [])) :=
  ⟨by decide, popWait_after_exit [3, 4] (by decide)⟩

end Handy
